import Mathlib

/-!
Verification of the coding-agent repository: a shallow embedding of the
patch engine (src/agent/patches.py), the tool registry dispatch
(src/agent/tools.py), the model-protocol response parser
(src/agent/llm_openai_compat.py), the background-process inspector
(src/agent/terminal.py) and the agent chat loop (src/agent/agent_loop.py),
together with theorems settling the specification claims.

Modelling conventions: Python strings are lists of characters (`Str`), with
the needed Python string primitives (`startswith`, `splitlines`, `strip`,
`rstrip`, `int()`, `str.join`) implemented structurally so that every
definition evaluates inside the kernel; Python lists are Lean `List`s; the
filesystem is a flat association list from paths to file contents
(directory creation is not observable); machine integers are `Int`; raised
exceptions are `Except Str`; JSON values are the inductive `RVal`.
Functions keep the names of their Python sources where Lean allows.
-/

/-! ## Python string primitives over `List Char` -/

/-- Python strings, as lists of characters. -/
abbrev Str := List Char

/-- Turn a Lean string literal into a model string. -/
def S (s : String) : Str := s.data

/-- Python `s.startswith(p)`. -/
def pyStartsWith (s p : Str) : Bool := p.isPrefixOf s

/-- The ASCII whitespace characters stripped by Python `str.strip()`. -/
def pyIsSpace (c : Char) : Bool :=
  c == ' ' || c == '\t' || c == '\n' || c == '\r' || c == '\x0b' || c == '\x0c'

/-- Python `s.rstrip()`. -/
def pyRstrip (s : Str) : Str := (s.reverse.dropWhile pyIsSpace).reverse

/-- Python `s.lstrip()`. -/
def pyLstrip (s : Str) : Str := s.dropWhile pyIsSpace

/-- Python `s.strip()`. -/
def pyStrip (s : Str) : Str := pyRstrip (pyLstrip s)

/-- Split on every newline character (auxiliary for `splitlines`). -/
def splitOnNl : Str → List Str
  | [] => [[]]
  | c :: rest =>
    match splitOnNl rest, c == '\n' with
    | r, true => [] :: r
    | [], false => [[c]]
    | h :: t, false => (c :: h) :: t

/-- Python `s.splitlines()` restricted to the newline separator: no final
empty line for a trailing newline, and an empty string yields no lines. -/
def pySplitLines (s : Str) : List Str :=
  let parts := splitOnNl s
  if parts.getLast? = some [] then parts.dropLast else parts

/-- Python `"\n".join(lines)`. -/
def joinNL (lines : List Str) : Str :=
  List.intercalate [ '\n' ] lines

/-- Digits of a decimal literal (auxiliary for Python `int()`). -/
def digitsToNatAux : Str → Nat → Option Nat
  | [], acc => some acc
  | c :: rest, acc =>
    if c.isDigit then digitsToNatAux rest (acc * 10 + (c.toNat - 48)) else none

/-- Parse a non-empty run of decimal digits. -/
def digitsToNat : Str → Option Nat
  | [] => none
  | cs => digitsToNatAux cs 0

/-- Python `int(s)` for a stripped string: optional sign then digits. -/
def pyToInt : Str → Option Int
  | '-' :: rest => (digitsToNat rest).map (fun n => -(n : Int))
  | '+' :: rest => (digitsToNat rest).map (fun n => (n : Int))
  | s => (digitsToNat s).map (fun n => (n : Int))

/-- Decimal rendering of a natural number, as a model string. -/
def natToStr (n : Nat) : Str := (toString n).data

/-- Decimal rendering of an integer, as a model string. -/
def intToStr (n : Int) : Str := (toString n).data

/-- Python `lines[-n:]` for `n ≥ 0` (`-0` means the whole list). -/
def pyTail (l : List Str) (n : Nat) : List Str :=
  if n = 0 then l else l.drop (l.length - n)

/-! ## Flat filesystem model -/

/-- The filesystem as an association list from absolute paths to file contents. -/
abbrev FS := List (Str × Str)

/-- Read a file (`open(path).read()` succeeds iff the path is present). -/
def fsRead (fs : FS) (path : Str) : Option Str :=
  (List.find? (fun e => e.1 == path) fs).map (·.2)

/-- Remove a file; removing an absent path is a no-op (`os.path.exists` guard). -/
def fsErase (fs : FS) (path : Str) : FS :=
  List.filter (fun e => !(e.1 == path)) fs

/-- `_write_text`: create or overwrite a file.  Parent-directory creation
(`os.makedirs`) is not observable in the flat model. -/
def fsWrite (fs : FS) (path content : Str) : FS :=
  (path, content) :: fsErase fs path

instance {ε α : Type} [DecidableEq ε] [DecidableEq α] : DecidableEq (Except ε α) := fun x y =>
  match x, y with
  | .error e1, .error e2 =>
    if h : e1 = e2 then .isTrue (by rw [h]) else .isFalse (by intro hc; cases hc; exact h rfl)
  | .ok a1, .ok a2 =>
    if h : a1 = a2 then .isTrue (by rw [h]) else .isFalse (by intro hc; cases hc; exact h rfl)
  | .error _, .ok _ => .isFalse (by intro hc; cases hc)
  | .ok _, .error _ => .isFalse (by intro hc; cases hc)

/-! ## Patch engine (src/agent/patches.py) -/

/-- One hunk of an Update action, as raw tagged lines (`UpdateChunk`). -/
structure UpdateChunk where
  lines : List Str
deriving Repr, DecidableEq

/-- Strip one leading `+` from a line if present (`l[1:] if l.startswith("+") else l`). -/
def stripPlus (l : Str) : Str :=
  if pyStartsWith l (S "+") then l.drop 1 else l

/-- `_compile_chunk`: split a hunk's raw lines into the pattern
(context + deletions, in original order) and the replacement
(context + additions, in original order). -/
def compileChunk : List Str → List Str × List Str
  | [] => ([], [])
  | raw :: rest =>
    let pr := compileChunk rest
    if pyStartsWith raw (S "+") then (pr.1, raw.drop 1 :: pr.2)
    else if pyStartsWith raw (S "-") then (raw.drop 1 :: pr.1, pr.2)
    else
      let ctx := if pyStartsWith raw (S " ") then raw.drop 1 else raw
      (ctx :: pr.1, ctx :: pr.2)

/-- The identity canonicalisation (exact matching, `canonical=None` in the code). -/
def strId (s : Str) : Str := s

/-- The `_rstrip` canonicalisation of patches.py. -/
def strRstrip (s : Str) : Str := pyRstrip s

/-- The `_strip` canonicalisation of patches.py. -/
def strStrip (s : Str) : Str := pyStrip s

/-- `_find_subsequence`: leftmost index where `needle` occurs as a contiguous
run inside `haystack`, comparing lines through `canonical`; an empty needle
matches at index 0. -/
def findSubsequence (haystack needle : List Str) (canonical : Str → Str) : Option Nat :=
  if needle.isEmpty then some 0
  else
    let H := haystack.map canonical
    let N := needle.map canonical
    (List.range (H.length - N.length + 1)).find? (fun i => (H.drop i).take N.length == N)

/-- `needle` occurs as a contiguous run of lines of `haystack` at index `i`,
comparing lines through the canonicalisation `c`. -/
def matchesAtC (c : Str → Str) (haystack needle : List Str) (i : Nat) : Prop :=
  i + needle.length ≤ haystack.length ∧
    ((haystack.drop i).take needle.length).map c = needle.map c

instance (c : Str → Str) (H N : List Str) (i : Nat) :
    Decidable (matchesAtC c H N i) := by
  unfold matchesAtC
  infer_instance

theorem matchesAtC_iff_pred (c : Str → Str) (H N : List Str) (hN : N ≠ []) (j : Nat) :
    (((H.map c).drop j).take (N.map c).length == N.map c) = true ↔ matchesAtC c H N j := by
  rw [beq_iff_eq, List.length_map, ← List.map_drop, ← List.map_take]
  unfold matchesAtC
  constructor
  · intro h
    refine ⟨?_, h⟩
    have hlen := congrArg List.length h
    simp only [List.length_map, List.length_take, List.length_drop] at hlen
    have hpos : 0 < N.length := List.length_pos.mpr hN
    omega
  · exact And.right

/-- `_find_subsequence` returns exactly the leftmost occurrence index of a
non-empty needle under the given canonicalisation. -/
theorem findSubsequence_eq_some_iff (H N : List Str) (c : Str → Str)
    (hN : N ≠ []) (i : Nat) :
    findSubsequence H N c = some i ↔
      matchesAtC c H N i ∧ ∀ j < i, ¬ matchesAtC c H N j := by
  unfold findSubsequence
  have hne : N.isEmpty = false := by
    cases N with
    | nil => exact absurd rfl hN
    | cons a t => rfl
  rw [hne]
  simp only [Bool.false_eq_true, if_false]
  rw [List.find?_eq_some_iff_getElem]
  constructor
  · rintro ⟨hp, k, hk, hki, hbefore⟩
    simp only [List.getElem_range] at hki
    subst hki
    refine ⟨(matchesAtC_iff_pred c H N hN k).mp hp, ?_⟩
    intro j hj hmatch
    have hb := hbefore j hj
    simp only [List.getElem_range] at hb
    rw [(matchesAtC_iff_pred c H N hN j).mpr hmatch] at hb
    simp at hb
  · rintro ⟨hmatch, hleast⟩
    have hin : i < (List.range ((H.map c).length - (N.map c).length + 1)).length := by
      have hbound := hmatch.1
      have hpos : 0 < N.length := List.length_pos.mpr hN
      simp only [List.length_range, List.length_map]
      omega
    refine ⟨(matchesAtC_iff_pred c H N hN i).mpr hmatch, i, hin, ?_, ?_⟩
    · simp [List.getElem_range]
    · intro j hj
      simp only [List.getElem_range]
      have := hleast j hj
      simp only [Bool.not_eq_true']
      by_contra hcontra
      simp only [Bool.not_eq_false] at hcontra
      exact this ((matchesAtC_iff_pred c H N hN j).mp hcontra)

/-- `_find_subsequence` with an empty needle returns index 0. -/
theorem findSubsequence_nil (H : List Str) (c : Str → Str) :
    findSubsequence H [] c = some 0 := rfl

/-- The three lookup strategies of `_apply_update`, tried in order:
exact, then rstrip, then strip. -/
def findChunkStart (fileLines pattern : List Str) : Option Nat :=
  match findSubsequence fileLines pattern strId with
  | some s => some s
  | none =>
    match findSubsequence fileLines pattern strRstrip with
    | some s => some s
    | none => findSubsequence fileLines pattern strStrip

/-- `file_lines[start : start + n] = replacement`. -/
def spliceAt (l : List Str) (start n : Nat) (replacement : List Str) : List Str :=
  l.take start ++ replacement ++ l.drop (start + n)

/-- The `PatchError` message of `_apply_update` for an unmatched hunk. -/
def chunkNotFoundMsg (path : Str) (patternLen : Nat) : Str :=
  S "Could not find chunk to apply in " ++ path ++ S " (pattern length=" ++ natToStr patternLen ++ S ")"

/-- The chunk loop of `_apply_update`: apply each hunk in order against the
progressively modified line list; raise on the first unmatched hunk. -/
def applyChunksP (path : Str) : List Str → List UpdateChunk → Except Str (List Str)
  | fileLines, [] => .ok fileLines
  | fileLines, chunk :: rest =>
    let pr := compileChunk chunk.lines
    match findChunkStart fileLines pr.1 with
    | some s => applyChunksP path (spliceAt fileLines s pr.1.length pr.2) rest
    | none => .error (chunkNotFoundMsg path pr.1.length)

/-- Full file rewrite of `_apply_update`: join lines, with a trailing newline
iff the result is non-empty. -/
def joinWithFinalNL (lines : List Str) : Str :=
  joinNL lines ++ (if lines.isEmpty then [] else S "\n")

/-- `_apply_update`: read the current content (empty if absent), apply all
hunks, and rewrite the file in full; the filesystem is untouched on error. -/
def applyUpdateFs (path : Str) (chunks : List UpdateChunk) (fs : FS) : Except Str FS :=
  let oldText := (fsRead fs path).getD []
  let fileLines := pySplitLines oldText
  match applyChunksP path fileLines chunks with
  | .error e => .error e
  | .ok newLines => .ok (fsWrite fs path (joinWithFinalNL newLines))

/-- An applied action as recorded in the result list of `apply_v4a_patch`. -/
inductive PatchAction where
  | add (path : Str)
  | delete (path : Str)
  | update (path : Str) (chunks : Nat)
deriving Repr, DecidableEq

/-- `line.split(":", 1)[1].strip()` for a directive line (which contains a colon). -/
def parseDirectivePath (line : Str) : Str :=
  pyStrip ((line.dropWhile (fun c => c != ':')).drop 1)

/-- Classification of a patch line by the directive checks of `apply_v4a_patch`,
performed in the order the code tests them. -/
inductive Directive where
  | endPatch
  | addFile (path : Str)
  | deleteFile (path : Str)
  | updateFile (path : Str)
  | other
deriving Repr, DecidableEq

/-- The `startswith` chain of the main loop of `apply_v4a_patch`. -/
def classifyDirective (line : Str) : Directive :=
  if pyStartsWith line (S "*** End Patch") then .endPatch
  else if pyStartsWith line (S "*** Add File:") then .addFile (parseDirectivePath line)
  else if pyStartsWith line (S "*** Delete File:") then .deleteFile (parseDirectivePath line)
  else if pyStartsWith line (S "*** Update File:") then .updateFile (parseDirectivePath line)
  else .other

/-- A line that opens a new `*** ` directive (ends the body of an action). -/
def isDirectiveLine (l : Str) : Bool := pyStartsWith l (S "*** ")

theorem dropWhileLengthLe {α : Type} (p : α → Bool) :
    ∀ l : List α, (l.dropWhile p).length ≤ l.length := by
  intro l
  induction l with
  | nil => simp [List.dropWhile]
  | cons a t ih =>
    simp only [List.dropWhile]
    cases p a
    · simp
    · exact Nat.le_succ_of_le ih

/-- A line inside an `@@`-hunk body: neither a new `@@` header nor a directive. -/
def isChunkBodyLine (x : Str) : Bool :=
  !(pyStartsWith x (S "@@")) && !(isDirectiveLine x)

/-- Parse the `@@`-introduced hunks of an Update action: each `@@` header is
consumed, then lines up to the next `@@` or directive form one hunk. -/
def parseAtChunks : List Str → List UpdateChunk × List Str
  | [] => ([], [])
  | l :: rest =>
    if pyStartsWith l (S "@@") then
      (UpdateChunk.mk (rest.takeWhile isChunkBodyLine) :: (parseAtChunks (rest.dropWhile isChunkBodyLine)).1,
       (parseAtChunks (rest.dropWhile isChunkBodyLine)).2)
    else ([], l :: rest)
termination_by lines => lines.length
decreasing_by
  all_goals
    simp only [List.length_cons]
    exact Nat.lt_succ_of_le (dropWhileLengthLe _ _)

/-- Parse the hunks of an Update action: with no `@@` marker the whole block
up to the next directive is a single hunk, else one hunk per `@@` header. -/
def parseUpdateChunks (lines : List Str) : List UpdateChunk × List Str :=
  match lines with
  | [] => ([], [])
  | l :: rest =>
    if !(pyStartsWith l (S "@@")) then
      ([UpdateChunk.mk ((l :: rest).takeWhile (fun x => !(isDirectiveLine x)))],
       (l :: rest).dropWhile (fun x => !(isDirectiveLine x)))
    else parseAtChunks (l :: rest)

theorem parseAtChunksLengthLe :
    ∀ (n : Nat) (lines : List Str), lines.length ≤ n →
      (parseAtChunks lines).2.length ≤ lines.length := by
  intro n
  induction n with
  | zero =>
    intro lines h
    have : lines = [] := List.eq_nil_of_length_eq_zero (Nat.le_zero.mp h)
    subst this
    simp [parseAtChunks]
  | succ n ih =>
    intro lines h
    match lines with
    | [] => simp [parseAtChunks]
    | l :: rest =>
      rw [parseAtChunks]
      by_cases hat : pyStartsWith l (S "@@") = true
      · simp only [hat, if_true]
        have h1 : (rest.dropWhile isChunkBodyLine).length ≤ rest.length :=
          dropWhileLengthLe _ _
        have h2 : (rest.dropWhile isChunkBodyLine).length ≤ n := by
          simp only [List.length_cons] at h
          omega
        have h3 := ih (rest.dropWhile isChunkBodyLine) h2
        simp only [List.length_cons]
        omega
      · simp [hat]

theorem parseUpdateChunksLengthLe (lines : List Str) :
    (parseUpdateChunks lines).2.length ≤ lines.length := by
  match lines with
  | [] => simp [parseUpdateChunks]
  | l :: rest =>
    rw [parseUpdateChunks]
    by_cases h : pyStartsWith l (S "@@") = true
    · simp only [h, Bool.not_true, Bool.false_eq_true, if_false]
      exact parseAtChunksLengthLe (l :: rest).length (l :: rest) (Nat.le_refl _)
    · simp only [eq_false_of_ne_true h, Bool.not_false, if_true]
      exact dropWhileLengthLe _ _

/-- The main loop of `apply_v4a_patch` after the begin marker has been
consumed: process directives until end-of-input or `*** End Patch`,
threading the filesystem and the applied-action list; an error aborts with
the filesystem exactly as already modified. -/
def patchLoop : List Str → FS → List PatchAction → FS × Except Str (List PatchAction)
  | [], fs, applied => (fs, .ok applied)
  | line :: rest, fs, applied =>
    match classifyDirective line with
    | .endPatch => (fs, .ok applied)
    | .addFile path =>
      let raw := rest.takeWhile (fun l => !(isDirectiveLine l))
      let contentLines := raw.map stripPlus
      patchLoop (rest.dropWhile (fun l => !(isDirectiveLine l)))
        (fsWrite fs path (joinWithFinalNL contentLines))
        (applied ++ [.add path])
    | .deleteFile path =>
      patchLoop rest (fsErase fs path) (applied ++ [.delete path])
    | .updateFile path =>
      let parsed := parseUpdateChunks rest
      match applyUpdateFs path parsed.1 fs with
      | .error e => (fs, .error e)
      | .ok fs1 => patchLoop parsed.2 fs1 (applied ++ [.update path parsed.1.length])
    | .other => (fs, .error (S "Unexpected patch line: " ++ line))
termination_by lines _ _ => lines.length
decreasing_by
  · simp only [List.length_cons]
    exact Nat.lt_succ_of_le (dropWhileLengthLe _ _)
  · simp
  · simp only [List.length_cons]
    exact Nat.lt_succ_of_le (parseUpdateChunksLengthLe rest)

/-- `apply_v4a_patch`: require a `*** Begin Patch` line somewhere (else
`PatchError` before any filesystem effect), seek past the first such line,
then run the directive loop. -/
def applyV4APatch (patchText : Str) (fs : FS) : FS × Except Str (List PatchAction) :=
  let lines := pySplitLines patchText
  if lines.any (fun l => pyStartsWith l (S "*** Begin Patch")) then
    patchLoop ((lines.dropWhile (fun l => !(pyStartsWith l (S "*** Begin Patch")))).drop 1) fs []
  else
    (fs, .error (S "Patch must start with \x27*** Begin Patch\x27"))

/-! ## JSON values (Python dicts/lists as passed around by the registry) -/

/-- A JSON-like Python value: tool arguments, tool results and model
responses.  Dicts are association lists in insertion order. -/
inductive RVal where
  | null
  | bool (b : Bool)
  | num (n : Int)
  | str (s : Str)
  | arr (items : List RVal)
  | obj (fields : List (Str × RVal))

/-- Python truthiness of a JSON value. -/
def rvTruthy : RVal → Bool
  | .null => false
  | .bool b => b
  | .num n => n != 0
  | .str s => !s.isEmpty
  | .arr items => !items.isEmpty
  | .obj fields => !fields.isEmpty

/-- `d.get(k)` on a dict value (missing key or non-dict gives `none`). -/
def rvGet (v : RVal) (k : Str) : Option RVal :=
  match v with
  | .obj fields => (fields.find? (fun e => e.1 == k)).map (·.2)
  | _ => none

/-- `d.get(k)` with Python's `None` for a missing key. -/
def rvGetD (v : RVal) (k : Str) : RVal :=
  (rvGet v k).getD .null

/-- Escaping of one character in `json.dumps` (common escapes only). -/
def jsonEscapeChar (c : Char) : Str :=
  if c = '\\' then S "\\\\"
  else if c = '"' then S "\\\""
  else if c = '\n' then S "\\n"
  else if c = '\t' then S "\\t"
  else if c = '\r' then S "\\r"
  else [c]

/-- String escaping of `json.dumps`. -/
def jsonEscape (s : Str) : Str := (s.map jsonEscapeChar).flatten

mutual

/-- `json.dumps` with its default separators. -/
def jsonDumps : RVal → Str
  | .null => S "null"
  | .bool b => if b then S "true" else S "false"
  | .num n => intToStr n
  | .str s => S "\"" ++ jsonEscape s ++ S "\""
  | .arr items => S "[" ++ jsonDumpsArr items ++ S "]"
  | .obj fields => S "\x7b" ++ jsonDumpsObj fields ++ S "\x7d"

def jsonDumpsArr : List RVal → Str
  | [] => []
  | [x] => jsonDumps x
  | x :: y :: rest => jsonDumps x ++ S ", " ++ jsonDumpsArr (y :: rest)

def jsonDumpsObj : List (Str × RVal) → Str
  | [] => []
  | [(k, v)] => S "\"" ++ jsonEscape k ++ S "\": " ++ jsonDumps v
  | (k, v) :: e :: rest =>
    S "\"" ++ jsonEscape k ++ S "\": " ++ jsonDumps v ++ S ", " ++ jsonDumpsObj (e :: rest)

end

/-! ## Terminal manager: background-process inspection (src/agent/terminal.py) -/

/-- A `BackgroundProcess` record / one entry of the process index file. -/
structure ProcRecord where
  processId : Str
  pid : Int
  command : Str
  cwd : Option Str
  logPath : Str
  statusPath : Str
  startedAt : Int

/-- The two result shapes of `TerminalManager.get_process_output`. -/
inductive GetProcOut where
  | notFound (error : Str)
  | found (processId : Str) (pid : Int) (running : Bool) (exitCode : Option Int) (output : Str)

/-- `TerminalManager.get_process_output`: look the record up in the index,
read the log tail and the status file (exit code parsed as an integer,
parse failure giving `none`), probe the pid with signal 0 (`probeAlive`,
false when the probe raises `OSError`), and report
`running = alive and exit_code is None`. -/
def getProcessOutput (index : List ProcRecord) (fs : FS) (probeAlive : Int → Bool)
    (processId : Str) (tailLines : Option Nat) : GetProcOut :=
  match index.find? (fun r => r.processId == processId) with
  | none => .notFound (S "Unknown process_id: " ++ processId)
  | some info =>
    let output := match fsRead fs info.logPath with
      | none => []
      | some txt =>
        let ls := pySplitLines txt
        let ls := match tailLines with
          | none => ls
          | some n => pyTail ls n
        joinNL ls
    let exitCode := match fsRead fs info.statusPath with
      | none => none
      | some txt => pyToInt (pyStrip txt)
    let alive := probeAlive info.pid
    .found processId info.pid (alive && exitCode.isNone) exitCode output

/-- A foreground `TerminalManager.execute` result (stderr is always merged). -/
structure ExecResult where
  exitCode : Int
  stdout : Str

/-! ## Tool registry (src/agent/tools.py) -/

/-- The effects environment of a `ToolRegistry`: the filesystem, the
directory/regex/walk primitives of the `os` and `re` modules (traversal
order and noise-directory pruning abstracted into `walkFiles`), the
`difflib`-based unified diff, and the terminal manager operations (an
`Except.error` models a raised exception). -/
structure ToolEnv where
  fs : FS
  listdir : Str → Except Str (List Str)
  isDir : Str → Bool
  regexCompile : Str → Except Str (Str → Bool)
  walkFiles : Str → List Str
  unifiedDiff : Str → Str → Str → Str
  termExecute : Str → Option Str → Int → Except Str ExecResult
  termStartBackground : Str → Option Str → Except Str ProcRecord
  procIndex : List ProcRecord
  probeAlive : Int → Bool

/-- Tool arguments: a JSON object's fields. -/
abbrev Args := List (Str × RVal)

/-- `args.get(k)`. -/
def argGet (args : Args) (k : Str) : Option RVal :=
  (args.find? (fun e => e.1 == k)).map (·.2)

/-- `args[k]`: a missing key raises `KeyError`, whose `str()` is `'k'`. -/
def argRequired (args : Args) (k : Str) : Except Str RVal :=
  match argGet args k with
  | some v => .ok v
  | none => .error (S "\x27" ++ k ++ S "\x27")

/-- Use a value where Python expects a string (`TypeError` otherwise). -/
def asStr : RVal → Except Str Str
  | .str s => .ok s
  | _ => .error (S "TypeError: expected str")

/-- Python `int(v)` on a JSON value. -/
def rvToInt : RVal → Except Str Int
  | .num n => .ok n
  | .bool b => .ok (if b then 1 else 0)
  | .str s =>
    match pyToInt (pyStrip s) with
    | some n => .ok n
    | none => .error (S "invalid literal for int()")
  | _ => .error (S "int() argument must be a number")

/-- Python `l[a:b]` for a natural start and a possibly negative end. -/
def pySliceEnd (l : List Str) (b : Int) : List Str :=
  let n : Int := l.length
  let b1 : Nat := if b < 0 then (b + n).toNat else min b.toNat l.length
  l.take b1

/-- `ToolRegistry._read_file`: read a file, optionally by line range
(`start_line` 1-based, defaulting to 1 on a falsy value; `end_line`
clamped to the line count). -/
def readFileTool (env : ToolEnv) (args : Args) : Except Str RVal := do
  let path ← asStr (← argRequired args (S "path"))
  let start : Int ←
    match argGet args (S "start_line") with
    | none => pure 1
    | some v => if rvTruthy v then rvToInt v else pure 1
  let endI : Option Int ←
    match argGet args (S "end_line") with
    | none => pure none
    | some .null => pure none
    | some v => do pure (some (← rvToInt v))
  let text ← match fsRead env.fs path with
    | some t => pure t
    | none => Except.error (S "No such file or directory: " ++ path)
  let lines := pySplitLines text
  let startIdx : Nat := (max (start - 1) 0).toNat
  let endIdx : Int := match endI with
    | none => (lines.length : Int)
    | some e => min e (lines.length : Int)
  let selected := (pySliceEnd lines endIdx).drop startIdx
  let endLineOut : Int := match endI with
    | none => (lines.length : Int)
    | some e => if e = 0 then (lines.length : Int) else e
  pure (.obj [(S "ok", .bool true), (S "path", .str path),
              (S "start_line", .num start), (S "end_line", .num endLineOut),
              (S "content", .str (joinNL selected))])

/-- Lexicographic boolean order on model strings (Python `sorted`). -/
def strLeB : Str → Str → Bool
  | [], _ => true
  | _ :: _, [] => false
  | a :: as1, b :: bs1 => if a == b then strLeB as1 bs1 else decide (a.toNat < b.toNat)

/-- `os.path.join` for one component. -/
def pyJoinPath (p n : Str) : Str := p ++ S "/" ++ n

/-- `ToolRegistry._list_dir`: sorted entries with a dir/file classification. -/
def listDirTool (env : ToolEnv) (args : Args) : Except Str RVal := do
  let path ← asStr (← argRequired args (S "path"))
  let names ← env.listdir path
  let entries := (names.mergeSort strLeB).map (fun n =>
    RVal.obj [(S "name", .str n),
              (S "type", .str (if env.isDir (pyJoinPath path n) then S "dir" else S "file"))])
  pure (.obj [(S "ok", .bool true), (S "path", .str path), (S "entries", .arr entries)])

/-- One `grep_search` match entry. -/
def mkGrepMatch (path : Str) (lineNo : Nat) (text : Str) : RVal :=
  .obj [(S "path", .str path), (S "line", .num lineNo), (S "text", .str text)]

/-- The per-file line scan of `_grep_search`; the boolean reports that the
result cap was hit (checked after each append, as in the code). -/
def grepFileLines (rx : Str → Bool) (path : Str) (maxResults : Int) :
    List (Nat × Str) → List RVal → List RVal × Bool
  | [], acc => (acc, false)
  | (i, line) :: rest, acc =>
    if rx line then
      let acc2 := acc ++ [mkGrepMatch path i line]
      if maxResults ≤ (acc2.length : Int) then (acc2, true)
      else grepFileLines rx path maxResults rest acc2
    else grepFileLines rx path maxResults rest acc

/-- The file walk of `_grep_search`: unreadable files are skipped silently. -/
def grepFiles (rx : Str → Bool) (fs : FS) (maxResults : Int) :
    List Str → List RVal → List RVal × Bool
  | [], acc => (acc, false)
  | f :: rest, acc =>
    match fsRead fs f with
    | none => grepFiles rx fs maxResults rest acc
    | some content =>
      let res := grepFileLines rx f maxResults
        ((pySplitLines content).enum.map (fun p => (p.1 + 1, p.2))) acc
      if res.2 then (res.1, true) else grepFiles rx fs maxResults rest res.1

/-- `ToolRegistry._grep_search` (traversal order and noise-directory pruning
abstracted into `env.walkFiles`). -/
def grepSearchTool (env : ToolEnv) (args : Args) : Except Str RVal := do
  let root ← match argGet args (S "root") with
    | none => pure (S ".")
    | some v => asStr v
  let pattern ← asStr (← argRequired args (S "pattern"))
  let maxResults : Int ←
    match argGet args (S "max_results") with
    | none => pure 20
    | some v => if rvTruthy v then rvToInt v else pure 20
  let rx ← env.regexCompile pattern
  let res := grepFiles rx env.fs maxResults (env.walkFiles root) []
  pure (.obj [(S "ok", .bool true), (S "pattern", .str pattern), (S "results", .arr res.1)])

/-- UTF-8 byte length of one character. -/
def charUtf8Len (c : Char) : Nat :=
  if c.toNat < 0x80 then 1
  else if c.toNat < 0x800 then 2
  else if c.toNat < 0x10000 then 3
  else 4

/-- `len(content.encode("utf-8"))`. -/
def utf8Len (s : Str) : Nat := s.foldl (fun a c => a + charUtf8Len c) 0

/-- `ToolRegistry._write_file` (the returned envelope; the filesystem write
itself is modelled by `fsWrite`). -/
def writeFileTool (_env : ToolEnv) (args : Args) : Except Str RVal := do
  let path ← asStr (← argRequired args (S "path"))
  let content ← asStr (← argRequired args (S "content"))
  pure (.obj [(S "ok", .bool true), (S "path", .str path), (S "bytes", .num (utf8Len content))])

/-- Serialisation of one applied patch action into the result dict. -/
def patchActionToRVal : PatchAction → RVal
  | .add p => .obj [(S "action", .str (S "add")), (S "path", .str p)]
  | .delete p => .obj [(S "action", .str (S "delete")), (S "path", .str p)]
  | .update p n => .obj [(S "action", .str (S "update")), (S "path", .str p), (S "chunks", .num n)]

/-- `ToolRegistry._apply_patch`: delegate to `apply_v4a_patch`; a
`PatchError` propagates as an exception to the dispatch wrapper. -/
def applyPatchTool (env : ToolEnv) (args : Args) : Except Str RVal := do
  let patch ← asStr (← argRequired args (S "patch"))
  match applyV4APatch patch env.fs with
  | (_, .error e) => Except.error e
  | (_, .ok acts) =>
    pure (.obj [(S "ok", .bool true), (S "applied", .arr (acts.map patchActionToRVal))])

/-- `ToolRegistry._create_diff`: diff the current content (empty if absent)
against the provided new content. -/
def createDiffTool (env : ToolEnv) (args : Args) : Except Str RVal := do
  let path ← asStr (← argRequired args (S "path"))
  let newContent ← asStr (← argRequired args (S "new_content"))
  let old := (fsRead env.fs path).getD []
  pure (.obj [(S "ok", .bool true), (S "path", .str path),
              (S "diff", .str (env.unifiedDiff path old newContent))])

/-- `ToolRegistry._execute_command`: foreground or background dispatch to the
terminal manager. -/
def executeCommandTool (env : ToolEnv) (args : Args) : Except Str RVal := do
  let command ← asStr (← argRequired args (S "command"))
  let cwd : Option Str ←
    match argGet args (S "cwd") with
    | none => pure none
    | some .null => pure none
    | some v => do pure (some (← asStr v))
  let timeoutS : Int ←
    match argGet args (S "timeout_s") with
    | none => pure 120
    | some v => if rvTruthy v then rvToInt v else pure 120
  let isBackground : Bool :=
    match argGet args (S "is_background") with
    | none => false
    | some v => rvTruthy v
  if isBackground then do
    let proc ← env.termStartBackground command cwd
    pure (.obj [(S "ok", .bool true), (S "background", .bool true),
                (S "process_id", .str proc.processId), (S "pid", .num proc.pid),
                (S "log_path", .str proc.logPath), (S "status_path", .str proc.statusPath)])
  else do
    let r ← env.termExecute command cwd timeoutS
    pure (.obj [(S "ok", .bool true), (S "background", .bool false),
                (S "exit_code", .num r.exitCode), (S "stdout", .str r.stdout),
                (S "stderr", .str [])])

/-- Serialisation of `get_process_output`'s result into the tool envelope. -/
def getProcOutToRVal : GetProcOut → RVal
  | .notFound e => .obj [(S "ok", .bool false), (S "error", .str e)]
  | .found pid0 pid running exitCode output =>
    .obj [(S "ok", .bool true), (S "process_id", .str pid0), (S "pid", .num pid),
          (S "running", .bool running),
          (S "exit_code", match exitCode with | none => .null | some n => .num n),
          (S "output", .str output)]

/-- `ToolRegistry._get_process_output`. -/
def getProcessOutputTool (env : ToolEnv) (args : Args) : Except Str RVal := do
  let processId ← asStr (← argRequired args (S "process_id"))
  let tail : Option Int ←
    match argGet args (S "tail_lines") with
    | none => pure (some 200)
    | some .null => pure none
    | some v => do pure (some (← rvToInt v))
  pure (getProcOutToRVal
    (getProcessOutput env.procIndex env.fs env.probeAlive processId (tail.map Int.toNat)))

/-- Serialisation of one index record for `list_processes`. -/
def procRecordToRVal (r : ProcRecord) : RVal :=
  .obj [(S "process_id", .str r.processId), (S "pid", .num r.pid),
        (S "command", .str r.command),
        (S "cwd", match r.cwd with | none => .null | some c => .str c),
        (S "log_path", .str r.logPath), (S "status_path", .str r.statusPath),
        (S "started_at", .num r.startedAt)]

/-- `ToolRegistry._list_processes`. -/
def listProcessesTool (env : ToolEnv) (_args : Args) : Except Str RVal :=
  pure (.obj [(S "ok", .bool true),
              (S "processes", .arr (env.procIndex.map procRecordToRVal))])

/-- The dispatch chain inside the `try` block of `ToolRegistry.execute`;
an unknown name returns the error envelope without raising. -/
def executeInner (env : ToolEnv) (name : Str) (args : Args) : Except Str RVal :=
  if name == S "read_file" then readFileTool env args
  else if name == S "list_dir" then listDirTool env args
  else if name == S "grep_search" then grepSearchTool env args
  else if name == S "write_file" then writeFileTool env args
  else if name == S "apply_patch" then applyPatchTool env args
  else if name == S "create_diff" then createDiffTool env args
  else if name == S "execute_command" then executeCommandTool env args
  else if name == S "get_process_output" then getProcessOutputTool env args
  else if name == S "list_processes" then listProcessesTool env args
  else .ok (.obj [(S "ok", .bool false), (S "error", .str (S "Unknown tool: " ++ name))])

/-- The uniform error envelope `{ok: False, error: msg}`. -/
def errEnvelope (msg : Str) : RVal :=
  .obj [(S "ok", .bool false), (S "error", .str msg)]

/-- `ToolRegistry.execute`: run the dispatch chain and convert any raised
exception into the error envelope. -/
def ToolRegistry.execute (env : ToolEnv) (name : Str) (args : Args) : RVal :=
  match executeInner env name args with
  | .ok r => r
  | .error e => errEnvelope e

/-- The fixed tool palette declared by `tool_schemas`/dispatched by `execute`. -/
def toolPalette : List Str :=
  [S "read_file", S "list_dir", S "grep_search", S "write_file", S "apply_patch",
   S "create_diff", S "execute_command", S "get_process_output", S "list_processes"]

/-! ## Model protocol adapter: response parsing (src/agent/llm_openai_compat.py) -/

/-- A normalized tool-call item of the assistant message
(`{"id", "type": "function", "function": {"name", "arguments"}}`). -/
structure ToolCallOut where
  id : Str
  name : Str
  argumentsJson : Str
deriving Repr, DecidableEq

/-- The normalized chat-completions-like assistant message. -/
structure ChatMsg where
  content : Option Str
  toolCalls : List ToolCallOut
deriving Repr, DecidableEq

/-- Python `str(v)` on a JSON value (containers rendered via `json.dumps`
as an approximation of `repr`). -/
def pyStrOf : RVal → Str
  | .null => S "None"
  | .bool b => if b then S "True" else S "False"
  | .num n => intToStr n
  | .str s => s
  | v => jsonDumps v

/-- The `output` array of a Responses API payload (empty if absent/not a list). -/
def respOutputItems (resp : RVal) : List RVal :=
  match rvGet resp (S "output") with
  | some (.arr items) => items
  | _ => []

/-- The `output_text` strings of one `message` output item, in order. -/
def msgTextParts (item : RVal) : List Str :=
  match rvGet item (S "content") with
  | some (.arr blocks) =>
    blocks.filterMap (fun b =>
      match rvGet b (S "type") with
      | some (.str t) =>
        if t == S "output_text" then
          match rvGet b (S "text") with
          | some (.str s) => some s
          | _ => none
        else none
      | _ => none)
  | _ => []

/-- Whether an output item is a tool-call item (`function_call`/`tool_call`). -/
def isToolCallItem (item : RVal) : Bool :=
  match rvGet item (S "type") with
  | some (.str t) => t == S "function_call" || t == S "tool_call"
  | _ => false

/-- Parse one tool-call output item: `call_id or id` (Python truthiness),
arguments normalized to a string (dict dumped, string kept, else `"{}"`),
skipped unless both call id and name are truthy. -/
def parseToolCallItem (item : RVal) : Option ToolCallOut :=
  if isToolCallItem item then
    let callId := if rvTruthy (rvGetD item (S "call_id")) then rvGetD item (S "call_id")
                  else rvGetD item (S "id")
    let name := rvGetD item (S "name")
    let argsJson :=
      match rvGet item (S "arguments") with
      | some (.obj fields) => jsonDumps (.obj fields)
      | some (.str s) => s
      | _ => S "\x7b\x7d"
    if rvTruthy callId && rvTruthy name then
      some ⟨pyStrOf callId, pyStrOf name, argsJson⟩
    else none
  else none

/-- The text parts collected by `_responses_to_chat_message`, including the
flat `output_text` fallback used when no structured text block was found. -/
def collectTextParts (resp : RVal) : List Str :=
  let parts := (respOutputItems resp).flatMap (fun item =>
    match rvGet item (S "type") with
    | some (.str t) => if t == S "message" then msgTextParts item else []
    | _ => [])
  if parts.isEmpty then
    match rvGet resp (S "output_text") with
    | some (.str s) => [s]
    | _ => []
  else parts

/-- `_responses_to_chat_message`: concatenate the text blocks (stripped) into
the content — `None` when no text part was collected at all — and collect
the normalized tool calls. -/
def responsesToChatMessage (resp : RVal) : ChatMsg :=
  let textParts := collectTextParts resp
  let toolCalls := (respOutputItems resp).filterMap parseToolCallItem
  { content := if textParts.isEmpty then none else some (pyStrip textParts.flatten),
    toolCalls := toolCalls }

/-! ## Agent loop (src/agent/agent_loop.py) -/

/-- A step of a multi-step plan (src/agent/planning/models.py). -/
structure PlanStep where
  description : Str
  completed : Bool
deriving Repr, DecidableEq

/-- A multi-step execution plan. -/
structure Plan where
  steps : List PlanStep
  currentStepIdx : Nat
  approved : Bool
deriving Repr, DecidableEq

/-- `Plan.is_complete`. -/
def Plan.isComplete (p : Plan) : Bool :=
  p.steps.length ≤ p.currentStepIdx

/-- `Plan.mark_current_complete`: mark the current step and advance. -/
def Plan.markCurrentComplete (p : Plan) : Plan :=
  if h : p.currentStepIdx < p.steps.length then
    { p with
      steps := p.steps.set p.currentStepIdx
        { (p.steps.get ⟨p.currentStepIdx, h⟩) with completed := true },
      currentStepIdx := p.currentStepIdx + 1 }
  else p

/-- `Plan.get_current_step`. -/
def Plan.getCurrentStep (p : Plan) : Option PlanStep :=
  p.steps.get? p.currentStepIdx

/-- `AgentConfig`. -/
structure AgentConfig where
  model : Option Str
  maxToolRounds : Nat
  debug : Bool
  enablePlanning : Bool

/-- A conversation message (`self.messages` entries). -/
inductive Msg where
  | system (content : Str)
  | user (content : Str)
  | assistant (m : ChatMsg)
  | tool (toolCallId : Str) (name : Str) (content : Str)
deriving Repr, DecidableEq

/-- A history event appended through `HistoryStore.append_event`
(timestamps, being wall-clock data, are not modelled). -/
inductive HEvent where
  | userE (text : Str)
  | assistantE (text : Str) (finalized : Bool)
  | toolCallE (name : Str) (args : RVal)
  | toolResultE (name : Str) (result : RVal)
  | debugE

/-- The mutable state of an `Agent` that `chat` touches. -/
structure AgentState where
  messages : List Msg
  historyEvents : List HEvent
  currentPlan : Option Plan
  planIntermediateOutputs : List (Nat × Str)

/-- The collaborators of `Agent.chat`: the model client (a pure function of
the conversation), `json.loads` on tool arguments (`none` = parse error),
the tool registry, plan generation (`none` = no plan) and the
finalization call (`none` = the call raised). -/
structure AgentEnv where
  model : List Msg → ChatMsg
  parseArgs : Str → Option RVal
  toolExec : Str → RVal → RVal
  genPlan : Str → Option Plan
  finalizePlan : Str → Plan → List Str → Option Str

/-- The fixed safe message returned when the round limit is exhausted. -/
def roundLimitMessage : Str :=
  S "(stopped: too many tool rounds; try a smaller request)"

/-- Argument parsing for one tool call: on a JSON parse error the raw string
is wrapped as a single `_raw` field rather than failing the round. -/
def parsedArgsOf (env : AgentEnv) (argsJson : Str) : RVal :=
  match env.parseArgs argsJson with
  | some v => v
  | none => .obj [(S "_raw", .str argsJson)]

/-- Dispatch of the tool calls of one assistant message, in the order given:
parse arguments, execute through the registry, record history events, and
append a tool-role message with the stringified result. -/
def execToolCalls (env : AgentEnv) (calls : List ToolCallOut) (st : AgentState) : AgentState :=
  calls.foldl (fun s c =>
    let args := parsedArgsOf env c.argumentsJson
    let result := env.toolExec c.name args
    { s with
      historyEvents := s.historyEvents ++ [.toolCallE c.name args, .toolResultE c.name result],
      messages := s.messages ++ [.tool c.id c.name (jsonDumps result)] }) st

/-- The texts handed to `_finalize_plan_response`:
`[o.get("text","") for o in outputs if o.get("text")]`. -/
def intermediateTexts (outputs : List (Nat × Str)) : List Str :=
  (outputs.filter (fun o => !o.2.isEmpty)).map (·.2)

/-- The no-tool-calls branch of the round loop: record the text, then (with
an active plan) mark the step complete and either continue with the next
step, or finalize the completed plan, falling back to the raw text if the
finalization call raises or returns an effectively empty summary. -/
def chatNoToolCalls (env : AgentEnv) (_cfg : AgentConfig) (originalRequest : Str)
    (contLoop : AgentState → AgentState × Str)
    (st0 : AgentState) (am : ChatMsg) : AgentState × Str :=
  let text := am.content.getD []
  let st1 := { st0 with historyEvents := st0.historyEvents ++ [HEvent.assistantE text false] }
  let st2 := match st1.currentPlan with
    | some p => { st1 with planIntermediateOutputs := st1.planIntermediateOutputs ++ [(p.currentStepIdx, text)] }
    | none => st1
  match st2.currentPlan with
  | some p =>
    if !p.isComplete then
      let p1 := p.markCurrentComplete
      if !p1.isComplete then
        match p1.getCurrentStep with
        | some step =>
          let continueMsg := Msg.user (S "Continue with next step: " ++ step.description)
          contLoop { st2 with currentPlan := some p1, messages := st2.messages ++ [continueMsg] }
        | none => ({ st2 with currentPlan := some p1 }, text)
      else
        let intermediate := st2.planIntermediateOutputs
        let st3 := { st2 with currentPlan := none, planIntermediateOutputs := [] }
        match env.finalizePlan originalRequest p1 (intermediateTexts intermediate) with
        | some final =>
          if !(pyStrip final).isEmpty then
            ({ st3 with historyEvents := st3.historyEvents ++ [HEvent.assistantE final true] }, final)
          else (st3, text)
        | none => (st3, text)
    else (st2, text)
  | none => (st2, text)

/-- The bounded round loop of `Agent.chat` (`for _round in range(max_tool_rounds)`),
with the remaining round count as fuel: call the model, append the
assistant message, dispatch its tool calls or finish; when the rounds are
exhausted, record and return the fixed safe message. -/
def chatLoop (env : AgentEnv) (cfg : AgentConfig) (originalRequest : Str) :
    Nat → AgentState → AgentState × Str
  | 0, st =>
    ({ st with historyEvents := st.historyEvents ++ [.assistantE roundLimitMessage false] },
     roundLimitMessage)
  | fuel + 1, st =>
    let am := env.model st.messages
    let st1 := { st with messages := st.messages ++ [.assistant am] }
    if am.toolCalls.isEmpty then
      chatNoToolCalls env cfg originalRequest (chatLoop env cfg originalRequest fuel) st1 am
    else
      chatLoop env cfg originalRequest fuel (execToolCalls env am.toolCalls st1)

/-- `Agent.chat`: record the user event, run the plan-generation gate (a
generated plan without auto-approval returns the approval sentinel without
consuming a model round), then append the user message and run the round
loop. -/
def Agent.chat (env : AgentEnv) (cfg : AgentConfig) (st : AgentState)
    (userText : Str) (autoApprovePlan : Bool) : AgentState × Str :=
  let st0 := { st with historyEvents := st.historyEvents ++ [.userE userText] }
  let gate : AgentState × Option Str :=
    if cfg.enablePlanning && st0.currentPlan.isNone then
      match env.genPlan userText with
      | some plan =>
        if !autoApprovePlan then
          ({ st0 with currentPlan := some plan, planIntermediateOutputs := [] },
            some (S "__PLAN_APPROVAL_NEEDED__"))
        else
          let approvedPlan := { plan with approved := true }
          ({ st0 with currentPlan := some approvedPlan, planIntermediateOutputs := [] }, none)
      | none => (st0, none)
    else (st0, none)
  match gate with
  | (st1, some sentinel) => (st1, sentinel)
  | (st1, none) =>
    chatLoop env cfg userText cfg.maxToolRounds
      { st1 with messages := st1.messages ++ [.user userText] }

/-! ## Theorems for the claims -/

theorem findSubsequence_leftmost (H N : List Str) (c : Str → Str) (i : Nat)
    (h : findSubsequence H N c = some i) :
    matchesAtC c H N i ∧ ∀ j < i, ¬ matchesAtC c H N j := by
  by_cases hN : N = []
  · subst hN
    rw [findSubsequence_nil] at h
    cases h
    constructor
    · constructor
      · simp
      · simp
    · intro j hj
      omega
  · exact (findSubsequence_eq_some_iff H N c hN i).mp h

theorem applyChunksP_single (path : Str) (fileLines chunkLines : List Str) :
    applyChunksP path fileLines [UpdateChunk.mk chunkLines] =
      match findChunkStart fileLines (compileChunk chunkLines).1 with
      | some s =>
        .ok (spliceAt fileLines s (compileChunk chunkLines).1.length (compileChunk chunkLines).2)
      | none => .error (chunkNotFoundMsg path (compileChunk chunkLines).1.length) := by
  cases h : findChunkStart fileLines (compileChunk chunkLines).1 <;>
    simp [applyChunksP, h]

/-- C3. Applying one Update hunk to the current file lines searches the
compiled pattern (context plus deletions, in original order) with three
strategies tried in order — exact equality, right-stripped comparison,
fully-stripped comparison — the first succeeding strategy wins, the match
used is the leftmost occurrence under that strategy, and the matched span
is replaced by the hunk's replacement lines; in particular file
`["a","b","c"]` with pattern `["a","b"]` and replacement `["a","X"]`
yields `["a","X","c"]`. -/
theorem update_hunk_match_strategy (path : Str) (fileLines chunkLines : List Str) :
    ((∀ i, findSubsequence fileLines (compileChunk chunkLines).1 strId = some i →
       (matchesAtC strId fileLines (compileChunk chunkLines).1 i ∧
          ∀ j < i, ¬ matchesAtC strId fileLines (compileChunk chunkLines).1 j) ∧
       applyChunksP path fileLines [UpdateChunk.mk chunkLines] =
         .ok (fileLines.take i ++ (compileChunk chunkLines).2 ++
              fileLines.drop (i + (compileChunk chunkLines).1.length)))
    ∧ (∀ i, findSubsequence fileLines (compileChunk chunkLines).1 strId = none →
        findSubsequence fileLines (compileChunk chunkLines).1 strRstrip = some i →
       (matchesAtC strRstrip fileLines (compileChunk chunkLines).1 i ∧
          ∀ j < i, ¬ matchesAtC strRstrip fileLines (compileChunk chunkLines).1 j) ∧
       applyChunksP path fileLines [UpdateChunk.mk chunkLines] =
         .ok (fileLines.take i ++ (compileChunk chunkLines).2 ++
              fileLines.drop (i + (compileChunk chunkLines).1.length)))
    ∧ (∀ i, findSubsequence fileLines (compileChunk chunkLines).1 strId = none →
        findSubsequence fileLines (compileChunk chunkLines).1 strRstrip = none →
        findSubsequence fileLines (compileChunk chunkLines).1 strStrip = some i →
       (matchesAtC strStrip fileLines (compileChunk chunkLines).1 i ∧
          ∀ j < i, ¬ matchesAtC strStrip fileLines (compileChunk chunkLines).1 j) ∧
       applyChunksP path fileLines [UpdateChunk.mk chunkLines] =
         .ok (fileLines.take i ++ (compileChunk chunkLines).2 ++
              fileLines.drop (i + (compileChunk chunkLines).1.length))))
    ∧ applyChunksP (S "f") [S "a", S "b", S "c"] [UpdateChunk.mk [S "a", S "-b", S "+X"]] =
        .ok [S "a", S "X", S "c"] := by
  refine ⟨⟨?_, ?_, ?_⟩, by decide⟩
  · intro i hexact
    refine ⟨findSubsequence_leftmost _ _ _ _ hexact, ?_⟩
    rw [applyChunksP_single]
    unfold findChunkStart
    rw [hexact]
    rfl
  · intro i hexact hr
    refine ⟨findSubsequence_leftmost _ _ _ _ hr, ?_⟩
    rw [applyChunksP_single]
    unfold findChunkStart
    rw [hexact, hr]
    rfl
  · intro i hexact hr hs
    refine ⟨findSubsequence_leftmost _ _ _ _ hs, ?_⟩
    rw [applyChunksP_single]
    unfold findChunkStart
    rw [hexact, hr, hs]
    rfl

theorem update_hunk_match_strategy_witness :
    ((matchesAtC strId [S "a", S "b", S "c"] (compileChunk [S "a", S "-b", S "+X"]).1 0 ∧
        ∀ j < 0, ¬ matchesAtC strId [S "a", S "b", S "c"] (compileChunk [S "a", S "-b", S "+X"]).1 j) ∧
      applyChunksP (S "f") [S "a", S "b", S "c"] [UpdateChunk.mk [S "a", S "-b", S "+X"]] =
        .ok ([S "a", S "b", S "c"].take 0 ++ (compileChunk [S "a", S "-b", S "+X"]).2 ++
             [S "a", S "b", S "c"].drop (0 + (compileChunk [S "a", S "-b", S "+X"]).1.length))) :=
  (update_hunk_match_strategy (S "f") [S "a", S "b", S "c"] [S "a", S "-b", S "+X"]).1.1
    0 (by decide)

theorem compileChunk_all_add (chunkLines : List Str)
    (h : ∀ l ∈ chunkLines, pyStartsWith l (S "+") = true) :
    compileChunk chunkLines = ([], chunkLines.map (fun l => l.drop 1)) := by
  induction chunkLines with
  | nil => rfl
  | cons a t ih =>
    have ha := h a (List.mem_cons_self a t)
    have ht := fun l hl => h l (List.mem_cons_of_mem a hl)
    simp [compileChunk, ha, ih ht]

/-- C10. An Update hunk consisting only of addition lines compiles to an
empty pattern, the empty pattern matches at index 0, and the replacement
lines are inserted at the very beginning of the file for any current
content (including an empty file); the operation never fails with an
unmatched-pattern error. -/
theorem empty_pattern_inserts_at_start (path : Str) (fileLines chunkLines : List Str)
    (hadd : ∀ l ∈ chunkLines, pyStartsWith l (S "+") = true) :
    (compileChunk chunkLines).1 = [] ∧
    findSubsequence fileLines (compileChunk chunkLines).1 strId = some 0 ∧
    applyChunksP path fileLines [UpdateChunk.mk chunkLines] =
      .ok (chunkLines.map (fun l => l.drop 1) ++ fileLines) := by
  have hc := compileChunk_all_add chunkLines hadd
  refine ⟨by rw [hc], by rw [hc]; exact findSubsequence_nil _ _, ?_⟩
  rw [applyChunksP_single]
  rw [hc]
  simp [findChunkStart, findSubsequence, spliceAt]

theorem empty_pattern_inserts_at_start_witness :
    (compileChunk [S "+new line"]).1 = [] ∧
    findSubsequence [S "old"] (compileChunk [S "+new line"]).1 strId = some 0 ∧
    applyChunksP (S "f") [S "old"] [UpdateChunk.mk [S "+new line"]] =
      .ok ([S "+new line"].map (fun l => l.drop 1) ++ [S "old"]) :=
  empty_pattern_inserts_at_start (S "f") [S "old"] [S "+new line"] (by decide)

theorem findChunkStart_eq_none (fileLines p : List Str)
    (h : findChunkStart fileLines p = none) :
    findSubsequence fileLines p strId = none ∧
    findSubsequence fileLines p strRstrip = none ∧
    findSubsequence fileLines p strStrip = none := by
  unfold findChunkStart at h
  cases h1 : findSubsequence fileLines p strId <;> rw [h1] at h
  · cases h2 : findSubsequence fileLines p strRstrip <;> rw [h2] at h
    · exact ⟨rfl, rfl, h⟩
    · cases h
  · cases h

theorem applyChunksP_error_shape :
    ∀ (chunks : List UpdateChunk) (fileLines : List Str) (path msg : Str),
      applyChunksP path fileLines chunks = .error msg →
      ∃ lines1 chunk, chunk ∈ chunks ∧
        findSubsequence lines1 (compileChunk chunk.lines).1 strId = none ∧
        findSubsequence lines1 (compileChunk chunk.lines).1 strRstrip = none ∧
        findSubsequence lines1 (compileChunk chunk.lines).1 strStrip = none ∧
        msg = chunkNotFoundMsg path (compileChunk chunk.lines).1.length := by
  intro chunks
  induction chunks with
  | nil => intro fileLines path msg h; cases h
  | cons chunk rest ih =>
    intro fileLines path msg h
    unfold applyChunksP at h
    dsimp only at h
    cases hf : findChunkStart fileLines (compileChunk chunk.lines).1 <;> rw [hf] at h
    · cases h
      obtain ⟨h1, h2, h3⟩ := findChunkStart_eq_none _ _ hf
      exact ⟨fileLines, chunk, List.mem_cons_self _ _, h1, h2, h3, rfl⟩
    · obtain ⟨lines1, c, hc, hh⟩ := ih _ _ _ h
      exact ⟨lines1, c, List.mem_cons_of_mem _ hc, hh⟩

/-- C4. If the Update action at the head of the remaining patch lines fails
(its hunks cannot all be matched), the whole patch application aborts with
a `PatchError` whose message names the file and the length of the
unmatched compiled pattern — a pattern on which all three matching
strategies returned no occurrence — and the returned filesystem is exactly
the incoming one: every Add or Delete action performed earlier in the same
patch (already folded into `fs`) remains applied, with no rollback. -/
theorem update_unmatched_aborts (line path : Str) (rest : List Str)
    (fs : FS) (applied : List PatchAction) (msg : Str)
    (hdir : classifyDirective line = .updateFile path)
    (herr : applyUpdateFs path (parseUpdateChunks rest).1 fs = .error msg) :
    patchLoop (line :: rest) fs applied = (fs, .error msg) ∧
    ∃ lines1 chunk, chunk ∈ (parseUpdateChunks rest).1 ∧
      findSubsequence lines1 (compileChunk chunk.lines).1 strId = none ∧
      findSubsequence lines1 (compileChunk chunk.lines).1 strRstrip = none ∧
      findSubsequence lines1 (compileChunk chunk.lines).1 strStrip = none ∧
      msg = chunkNotFoundMsg path (compileChunk chunk.lines).1.length := by
  constructor
  · simp only [patchLoop, hdir, herr]
  · unfold applyUpdateFs at herr
    dsimp only at herr
    cases hch : applyChunksP path (pySplitLines ((fsRead fs path).getD []))
        (parseUpdateChunks rest).1 <;> rw [hch] at herr
    · cases herr
      exact applyChunksP_error_shape _ _ _ _ hch
    · cases herr

theorem update_unmatched_aborts_witness :
    (patchLoop (S "*** Update File: f" :: [S "-zzz", S "*** End Patch"])
        (fsWrite [] (S "a") (S "x\n")) [PatchAction.add (S "a")] =
      (fsWrite [] (S "a") (S "x\n"), .error (chunkNotFoundMsg (S "f") 1))) ∧
    ∃ lines1 chunk, chunk ∈ (parseUpdateChunks [S "-zzz", S "*** End Patch"]).1 ∧
      findSubsequence lines1 (compileChunk chunk.lines).1 strId = none ∧
      findSubsequence lines1 (compileChunk chunk.lines).1 strRstrip = none ∧
      findSubsequence lines1 (compileChunk chunk.lines).1 strStrip = none ∧
      chunkNotFoundMsg (S "f") 1 = chunkNotFoundMsg (S "f") (compileChunk chunk.lines).1.length :=
  update_unmatched_aborts (S "*** Update File: f") (S "f") [S "-zzz", S "*** End Patch"]
    (fsWrite [] (S "a") (S "x\n")) [PatchAction.add (S "a")]
    (chunkNotFoundMsg (S "f") 1) (by decide) (by decide)

/-- C5. Processing an Add File directive writes the target file with content
lines `L` (the following lines up to the next directive, each with one
leading `+` stripped when present): the loop continues on the remaining
lines with the file overwritten by `L` joined by newline plus a trailing
newline iff `L` is non-empty (empty `L` gives an empty file), and a read
of the written path returns exactly the new content whatever was there
before. -/
theorem add_file_content (line path : Str) (rest : List Str) (fs : FS)
    (applied : List PatchAction)
    (hdir : classifyDirective line = .addFile path) :
    patchLoop (line :: rest) fs applied =
      patchLoop (rest.dropWhile (fun l => !(isDirectiveLine l)))
        (fsWrite fs path
          (joinWithFinalNL ((rest.takeWhile (fun l => !(isDirectiveLine l))).map stripPlus)))
        (applied ++ [.add path]) ∧
    (∀ content : Str, fsRead (fsWrite fs path content) path = some content) ∧
    (∀ L : List Str, L ≠ [] → joinWithFinalNL L = joinNL L ++ S "\n") ∧
    joinWithFinalNL [] = [] := by
  refine ⟨?_, ?_, ?_, rfl⟩
  · simp only [patchLoop, hdir]
  · intro content
    simp [fsRead, fsWrite, List.find?]
  · intro L hL
    unfold joinWithFinalNL
    rw [if_neg (by simpa using hL)]

theorem add_file_content_witness :
    patchLoop (S "*** Add File: t.txt" :: [S "+hello", S "*** End Patch"]) [] [] =
      patchLoop ([S "+hello", S "*** End Patch"].dropWhile (fun l => !(isDirectiveLine l)))
        (fsWrite [] (S "t.txt")
          (joinWithFinalNL (([S "+hello", S "*** End Patch"].takeWhile
            (fun l => !(isDirectiveLine l))).map stripPlus)))
        ([] ++ [.add (S "t.txt")]) ∧
    (∀ content : Str, fsRead (fsWrite [] (S "t.txt") content) (S "t.txt") = some content) ∧
    (∀ L : List Str, L ≠ [] → joinWithFinalNL L = joinNL L ++ S "\n") ∧
    joinWithFinalNL [] = [] :=
  add_file_content (S "*** Add File: t.txt") (S "t.txt") [S "+hello", S "*** End Patch"]
    [] [] (by decide)

/-- C6 counterexample. A patch text that does not start with the line
`*** Begin Patch` but contains it later is accepted: `apply_v4a_patch`
succeeds instead of raising a `PatchError`, refuting the claim as stated. -/
theorem begin_marker_not_first_line_accepted :
    pyStartsWith (S "junk\n*** Begin Patch\n*** End Patch") (S "*** Begin Patch") = false ∧
    (applyV4APatch (S "junk\n*** Begin Patch\n*** End Patch") []).2 = .ok [] := by
  constructor
  · decide
  · rw [applyV4APatch]
    rw [if_pos (by decide)]
    have harg : ((pySplitLines (S "junk\n*** Begin Patch\n*** End Patch")).dropWhile
        (fun l => !(pyStartsWith l (S "*** Begin Patch")))).drop 1 = [S "*** End Patch"] := by
      decide
    rw [harg]
    have hc : classifyDirective (S "*** End Patch") = .endPatch := by decide
    simp [patchLoop, hc]

/-- C6 amended. `apply_v4a_patch` fails with the `PatchError`
"Patch must start with '*** Begin Patch'" exactly when NO line of the
patch text starts with `*** Begin Patch`; a begin marker on any later
line is accepted (the parser seeks the first such line). -/
theorem no_begin_marker_fails (patchText : Str) (fs : FS)
    (h : ∀ l ∈ pySplitLines patchText, pyStartsWith l (S "*** Begin Patch") = false) :
    applyV4APatch patchText fs =
      (fs, .error (S "Patch must start with \x27*** Begin Patch\x27")) := by
  rw [applyV4APatch]
  rw [if_neg ?hcond]
  case hcond =>
    simp only [List.any_eq_true, not_exists, not_and]
    intro l hl
    simp [h l hl]

theorem no_begin_marker_fails_witness :
    applyV4APatch (S "*** Update File: x\n") [] =
      ([], .error (S "Patch must start with \x27*** Begin Patch\x27")) :=
  no_begin_marker_fails (S "*** Update File: x\n") [] (by decide)

theorem exceptBindOk {α β : Type} {x : Except Str α} {f : α → Except Str β} {r : β}
    (h : (x >>= f) = .ok r) : ∃ a, x = .ok a ∧ f a = .ok r := by
  cases x with
  | error e =>
    simp only [Bind.bind, Except.bind] at h
    exact Except.noConfusion h
  | ok a =>
    refine ⟨a, rfl, ?_⟩
    simpa only [Bind.bind, Except.bind] using h

theorem readFileTool_ok_obj (env : ToolEnv) (args : Args) (r : RVal)
    (h : readFileTool env args = .ok r) : ∃ fields, r = .obj fields := by
  unfold readFileTool at h
  simp only [Bind.bind, Except.bind, pure, Except.pure] at h
  repeat' split at h
  all_goals first
    | exact Except.noConfusion h
    | (cases h; exact ⟨_, rfl⟩)

theorem listDirTool_ok_obj (env : ToolEnv) (args : Args) (r : RVal)
    (h : listDirTool env args = .ok r) : ∃ fields, r = .obj fields := by
  unfold listDirTool at h
  simp only [Bind.bind, Except.bind, pure, Except.pure] at h
  repeat' split at h
  all_goals first
    | exact Except.noConfusion h
    | (cases h; exact ⟨_, rfl⟩)

theorem grepSearchTool_ok_obj (env : ToolEnv) (args : Args) (r : RVal)
    (h : grepSearchTool env args = .ok r) : ∃ fields, r = .obj fields := by
  unfold grepSearchTool at h
  simp only [Bind.bind, Except.bind, pure, Except.pure] at h
  repeat' split at h
  all_goals first
    | exact Except.noConfusion h
    | (cases h; exact ⟨_, rfl⟩)

theorem writeFileTool_ok_obj (env : ToolEnv) (args : Args) (r : RVal)
    (h : writeFileTool env args = .ok r) : ∃ fields, r = .obj fields := by
  unfold writeFileTool at h
  simp only [Bind.bind, Except.bind, pure, Except.pure] at h
  repeat' split at h
  all_goals first
    | exact Except.noConfusion h
    | (cases h; exact ⟨_, rfl⟩)

theorem applyPatchTool_ok_obj (env : ToolEnv) (args : Args) (r : RVal)
    (h : applyPatchTool env args = .ok r) : ∃ fields, r = .obj fields := by
  unfold applyPatchTool at h
  simp only [Bind.bind, Except.bind, pure, Except.pure] at h
  repeat' split at h
  all_goals first
    | exact Except.noConfusion h
    | (cases h; exact ⟨_, rfl⟩)

theorem createDiffTool_ok_obj (env : ToolEnv) (args : Args) (r : RVal)
    (h : createDiffTool env args = .ok r) : ∃ fields, r = .obj fields := by
  unfold createDiffTool at h
  simp only [Bind.bind, Except.bind, pure, Except.pure] at h
  repeat' split at h
  all_goals first
    | exact Except.noConfusion h
    | (cases h; exact ⟨_, rfl⟩)

theorem executeCommandTool_ok_obj (env : ToolEnv) (args : Args) (r : RVal)
    (h : executeCommandTool env args = .ok r) : ∃ fields, r = .obj fields := by
  unfold executeCommandTool at h
  simp only [Bind.bind, Except.bind, pure, Except.pure] at h
  repeat' split at h
  all_goals first
    | exact Except.noConfusion h
    | (cases h; exact ⟨_, rfl⟩)

theorem getProcOutToRVal_obj (g : GetProcOut) : ∃ fields, getProcOutToRVal g = .obj fields := by
  cases g <;> exact ⟨_, rfl⟩

theorem getProcessOutputTool_ok_obj (env : ToolEnv) (args : Args) (r : RVal)
    (h : getProcessOutputTool env args = .ok r) : ∃ fields, r = .obj fields := by
  unfold getProcessOutputTool at h
  simp only [Bind.bind, Except.bind, pure, Except.pure] at h
  repeat' split at h
  all_goals first
    | exact Except.noConfusion h
    | (cases h; exact getProcOutToRVal_obj _)

theorem listProcessesTool_ok_obj (env : ToolEnv) (args : Args) (r : RVal)
    (h : listProcessesTool env args = .ok r) : ∃ fields, r = .obj fields := by
  unfold listProcessesTool at h
  simp only [pure, Except.pure] at h
  cases h
  exact ⟨_, rfl⟩

/-- C2. `ToolRegistry.execute` always returns a result dictionary and never
propagates an exception: an exception raised by the dispatched operation is
converted to the `{ok: False, error: <message>}` envelope, and any name
outside the fixed tool palette yields exactly
`{ok: False, error: "Unknown tool: <name>"}`. -/
theorem tool_dispatch_normalizes (env : ToolEnv) (name : Str) (args : Args) :
    (∀ e, executeInner env name args = .error e →
      ToolRegistry.execute env name args = errEnvelope e) ∧
    (∃ fields, ToolRegistry.execute env name args = .obj fields) ∧
    (name ∉ toolPalette →
      ToolRegistry.execute env name args = errEnvelope (S "Unknown tool: " ++ name)) := by
  refine ⟨?_, ?_, ?_⟩
  · intro e he
    unfold ToolRegistry.execute
    rw [he]
  · unfold ToolRegistry.execute
    cases hinner : executeInner env name args with
    | error e => exact ⟨_, rfl⟩
    | ok r =>
      unfold executeInner at hinner
      split_ifs at hinner with h1 h2 h3 h4 h5 h6 h7 h8 h9
      · exact readFileTool_ok_obj env args r hinner
      · exact listDirTool_ok_obj env args r hinner
      · exact grepSearchTool_ok_obj env args r hinner
      · exact writeFileTool_ok_obj env args r hinner
      · exact applyPatchTool_ok_obj env args r hinner
      · exact createDiffTool_ok_obj env args r hinner
      · exact executeCommandTool_ok_obj env args r hinner
      · exact getProcessOutputTool_ok_obj env args r hinner
      · exact listProcessesTool_ok_obj env args r hinner
      · cases hinner
        exact ⟨_, rfl⟩
  · intro hnot
    simp only [toolPalette, List.mem_cons, List.not_mem_nil, or_false, not_or] at hnot
    obtain ⟨h1, h2, h3, h4, h5, h6, h7, h8, h9⟩ := hnot
    unfold ToolRegistry.execute executeInner
    rw [if_neg (by simpa using h1), if_neg (by simpa using h2), if_neg (by simpa using h3),
        if_neg (by simpa using h4), if_neg (by simpa using h5), if_neg (by simpa using h6),
        if_neg (by simpa using h7), if_neg (by simpa using h8), if_neg (by simpa using h9)]
    rfl

/-- A concrete effects environment for witnesses. -/
def envEx : ToolEnv where
  fs := [(S "f", S "l1\nl2\nl3")]
  listdir := fun _ => .error (S "boom")
  isDir := fun _ => false
  regexCompile := fun _ => .error (S "boom")
  walkFiles := fun _ => []
  unifiedDiff := fun _ _ _ => []
  termExecute := fun _ _ _ => .error (S "boom")
  termStartBackground := fun _ _ => .error (S "boom")
  procIndex := []
  probeAlive := fun _ => false

theorem tool_dispatch_normalizes_witness :
    ToolRegistry.execute envEx (S "frobnicate") [] =
      errEnvelope (S "Unknown tool: " ++ S "frobnicate") :=
  (tool_dispatch_normalizes envEx (S "frobnicate") []).2.2 (by decide)

/-- C7 counterexample. On the file "l1\nl2\nl3" with `start_line = 1` and
`end_line = 2`, `_read_file` returns the content "l1\nl2" — lines 1
through 2 — whereas the claim's exclusive-end reading (lines `s` through
`e-1`) would demand "l1": `end_line` is inclusive, not exclusive. -/
theorem read_file_range_counterexample :
    readFileTool envEx [(S "path", .str (S "f")), (S "start_line", .num 1), (S "end_line", .num 2)] =
      .ok (.obj [(S "ok", .bool true), (S "path", .str (S "f")), (S "start_line", .num 1),
                 (S "end_line", .num 2), (S "content", .str (S "l1\nl2"))]) ∧
    S "l1\nl2" ≠ S "l1" :=
  ⟨rfl, by decide⟩

/-- C7 amended. For a file with lines 1..n, `_read_file` with
`start_line = s ≥ 1` and `end_line = e ≥ 1` returns the lines of the
1-based range from `s` through `min e n` — the end bound is INCLUSIVE
(and clamped to `n`), not exclusive as claimed. -/
theorem read_file_end_inclusive (env : ToolEnv) (path text : Str) (s e : Int)
    (hfile : fsRead env.fs path = some text) (hs : 1 ≤ s) (he : 1 ≤ e) :
    readFileTool env [(S "path", .str path), (S "start_line", .num s), (S "end_line", .num e)] =
      .ok (.obj [(S "ok", .bool true), (S "path", .str path), (S "start_line", .num s),
                 (S "end_line", .num e),
                 (S "content", .str (joinNL (((pySplitLines text).take
                    (min e.toNat (pySplitLines text).length)).drop (s.toNat - 1))))]) := by
  have htruthy : rvTruthy (RVal.num s) = true := by
    simp only [rvTruthy, bne_iff_ne, ne_eq, decide_eq_true_eq]
    omega
  have hene : e ≠ 0 := by omega
  unfold readFileTool
  have h1 : argRequired [(S "path", RVal.str path), (S "start_line", RVal.num s),
      (S "end_line", RVal.num e)] (S "path") = .ok (RVal.str path) := rfl
  have h2 : argGet [(S "path", RVal.str path), (S "start_line", RVal.num s),
      (S "end_line", RVal.num e)] (S "start_line") = some (RVal.num s) := rfl
  have h3 : argGet [(S "path", RVal.str path), (S "start_line", RVal.num s),
      (S "end_line", RVal.num e)] (S "end_line") = some (RVal.num e) := rfl
  rw [h1]
  simp only [Bind.bind, Except.bind, asStr, h2, h3, htruthy, if_true, rvToInt, pure, Except.pure,
    hfile]
  have hmax : (s - 1) ⊔ 0 = s - 1 := max_eq_left (by omega)
  have htn : (s - 1).toNat = s.toNat - 1 := by omega
  have hslice : pySliceEnd (pySplitLines text) (min e ((pySplitLines text).length : Int)) =
      (pySplitLines text).take (min e.toNat (pySplitLines text).length) := by
    unfold pySliceEnd
    dsimp only
    have hb : ¬ (e ⊓ ((pySplitLines text).length : Int) < 0) := by
      rw [not_lt]
      exact le_min (by omega) (by exact_mod_cast Nat.zero_le _)
    rw [if_neg hb]
    have key : ((e ⊓ ((pySplitLines text).length : Int)).toNat) ⊓ (pySplitLines text).length =
        e.toNat ⊓ (pySplitLines text).length := by
      rcases le_total e ((pySplitLines text).length : Int) with hle | hle
      · rw [min_eq_left hle]
      · rw [min_eq_right hle]
        simp only [Int.toNat_natCast, min_self]
        rw [eq_comm, min_eq_right]
        omega
    rw [key]
  rw [hmax, htn, hslice, if_neg hene]

theorem read_file_end_inclusive_witness :
    readFileTool envEx [(S "path", .str (S "f")), (S "start_line", .num 2), (S "end_line", .num 3)] =
      .ok (.obj [(S "ok", .bool true), (S "path", .str (S "f")), (S "start_line", .num 2),
                 (S "end_line", .num 3),
                 (S "content", .str (joinNL (((pySplitLines (S "l1\nl2\nl3")).take
                    (min (Int.toNat 3) (pySplitLines (S "l1\nl2\nl3")).length)).drop
                    (Int.toNat 2 - 1))))]) :=
  read_file_end_inclusive envEx (S "f") (S "l1\nl2\nl3") 2 3 rfl (by norm_num) (by norm_num)

/-- C8 counterexample. A response whose only output item is a message with a
single empty `output_text` block is normalized with content equal to the
empty string, not `None`: "only empty text" does NOT yield null content. -/
theorem empty_text_gives_empty_string :
    (responsesToChatMessage (.obj [(S "output", .arr [.obj
        [(S "type", .str (S "message")),
         (S "content", .arr [.obj [(S "type", .str (S "output_text")),
                                   (S "text", .str [])]])]])])).content = some [] ∧
    (some ([] : Str) ≠ (none : Option Str)) :=
  ⟨rfl, by decide⟩

/-- C8 amended. The normalized assistant content is `None` exactly when no
text string was collected at all (no `output_text` block with a string
text, and no string `output_text` fallback field); when text parts exist
the content is their concatenation, stripped — in particular a present but
empty text yields the empty string, not `None`. -/
theorem null_content_iff_no_text_parts (resp : RVal) :
    ((responsesToChatMessage resp).content = none ↔ collectTextParts resp = []) ∧
    (collectTextParts resp ≠ [] →
      (responsesToChatMessage resp).content = some (pyStrip (collectTextParts resp).flatten)) := by
  unfold responsesToChatMessage
  constructor
  · cases h : (collectTextParts resp).isEmpty
    · simp only [h, Bool.false_eq_true, if_false]
      constructor
      · intro hc
        cases hc
      · intro hc
        rw [hc] at h
        simp at h
    · have hnil : collectTextParts resp = [] := List.isEmpty_iff.mp h
      simp [h, hnil]
  · intro h
    have : (collectTextParts resp).isEmpty = false := by
      cases hc : (collectTextParts resp).isEmpty
      · rfl
      · exact absurd (List.isEmpty_iff.mp hc) h
    simp only [this, Bool.false_eq_true, if_false]

/-- A concrete response carrying one text block, for the C8 witness. -/
def respEx : RVal :=
  .obj [(S "output", .arr [.obj
    [(S "type", .str (S "message")),
     (S "content", .arr [.obj [(S "type", .str (S "output_text")),
                               (S "text", .str (S "hi"))]])]])]

theorem null_content_iff_no_text_parts_witness :
    ((responsesToChatMessage respEx).content = none ↔ collectTextParts respEx = []) ∧
    (responsesToChatMessage respEx).content =
      some (pyStrip (collectTextParts respEx).flatten) :=
  ⟨(null_content_iff_no_text_parts respEx).1,
   (null_content_iff_no_text_parts respEx).2 (by decide)⟩

/-- C9. For every record found in the index, `get_process_output` reports
`running = true` exactly when the zero-signal probe of the recorded pid
succeeds AND no exit code was parsed from the status file: a present exit
code forces `running = false` even when the probe succeeds, and a probe
error (modelled as `probeAlive = false`) means not running. -/
theorem proc_running_iff (index : List ProcRecord) (fs : FS) (probe : Int → Bool)
    (pid0 : Str) (tail : Option Nat) (info : ProcRecord)
    (hfind : index.find? (fun r => r.processId == pid0) = some info) :
    ∃ output,
      getProcessOutput index fs probe pid0 tail =
        .found pid0 info.pid
          (probe info.pid &&
            ((fsRead fs info.statusPath).bind (fun t => pyToInt (pyStrip t))).isNone)
          ((fsRead fs info.statusPath).bind (fun t => pyToInt (pyStrip t))) output ∧
      ((probe info.pid &&
          ((fsRead fs info.statusPath).bind (fun t => pyToInt (pyStrip t))).isNone) = true ↔
        (probe info.pid = true ∧
          (fsRead fs info.statusPath).bind (fun t => pyToInt (pyStrip t)) = none)) := by
  have hec : (match fsRead fs info.statusPath with
      | none => none
      | some txt => pyToInt (pyStrip txt)) =
      (fsRead fs info.statusPath).bind (fun t => pyToInt (pyStrip t)) := by
    cases fsRead fs info.statusPath <;> rfl
  unfold getProcessOutput
  rw [hfind]
  dsimp only
  rw [hec]
  exact ⟨_, rfl, by rw [Bool.and_eq_true, Option.isNone_iff_eq_none]⟩

/-- A concrete background-process record used by witnesses. -/
def procEx : ProcRecord where
  processId := S "p1"
  pid := 42
  command := S "sleep 1"
  cwd := none
  logPath := S "log1"
  statusPath := S "status1"
  startedAt := 0

theorem proc_running_iff_witness :
    ∃ output,
      getProcessOutput [procEx] [(S "status1", S "0\n")] (fun _ => true) (S "p1") (some 200) =
        .found (S "p1") procEx.pid
          ((fun _ : Int => true) procEx.pid &&
            ((fsRead [(S "status1", S "0\n")] procEx.statusPath).bind
              (fun t => pyToInt (pyStrip t))).isNone)
          ((fsRead [(S "status1", S "0\n")] procEx.statusPath).bind
            (fun t => pyToInt (pyStrip t))) output ∧
      (((fun _ : Int => true) procEx.pid &&
          ((fsRead [(S "status1", S "0\n")] procEx.statusPath).bind
            (fun t => pyToInt (pyStrip t))).isNone) = true ↔
        ((fun _ : Int => true) procEx.pid = true ∧
          (fsRead [(S "status1", S "0\n")] procEx.statusPath).bind
            (fun t => pyToInt (pyStrip t)) = none)) :=
  proc_running_iff [procEx] [(S "status1", S "0\n")] (fun _ => true) (S "p1") (some 200)
    procEx rfl

/-- Number of assistant-role messages in a conversation (one per model call). -/
def assistantCount (msgs : List Msg) : Nat :=
  msgs.countP (fun m => match m with | .assistant _ => true | _ => false)

theorem assistantCount_append (a b : List Msg) :
    assistantCount (a ++ b) = assistantCount a + assistantCount b :=
  List.countP_append _ _ _

theorem execToolCalls_assistantCount (env : AgentEnv) :
    ∀ (calls : List ToolCallOut) (st : AgentState),
      assistantCount (execToolCalls env calls st).messages = assistantCount st.messages := by
  intro calls
  induction calls with
  | nil => intro st; rfl
  | cons c rest ih =>
    intro st
    unfold execToolCalls
    rw [List.foldl_cons]
    have step := ih
      { st with
        historyEvents := st.historyEvents ++
          [.toolCallE c.name (parsedArgsOf env c.argumentsJson),
           .toolResultE c.name (env.toolExec c.name (parsedArgsOf env c.argumentsJson))],
        messages := st.messages ++
          [.tool c.id c.name
            (jsonDumps (env.toolExec c.name (parsedArgsOf env c.argumentsJson)))] }
    unfold execToolCalls at step
    rw [step, assistantCount_append]
    simp [assistantCount]

theorem chatLoop_round_limit (env : AgentEnv) (cfg : AgentConfig) (orig : Str)
    (htools : ∀ msgs, (env.model msgs).toolCalls ≠ []) :
    ∀ (n : Nat) (st : AgentState),
      (chatLoop env cfg orig n st).2 = roundLimitMessage ∧
      (chatLoop env cfg orig n st).1.historyEvents.getLast? =
        some (.assistantE roundLimitMessage false) ∧
      assistantCount (chatLoop env cfg orig n st).1.messages =
        assistantCount st.messages + n := by
  intro n
  induction n with
  | zero =>
    intro st
    refine ⟨rfl, ?_, by simp [chatLoop]⟩
    show (st.historyEvents ++ [HEvent.assistantE roundLimitMessage false]).getLast? = _
    rw [List.getLast?_append]
    rfl
  | succ k ih =>
    intro st
    have hne : (env.model st.messages).toolCalls.isEmpty = false := by
      cases hcs : (env.model st.messages).toolCalls
      · exact absurd hcs (htools st.messages)
      · rfl
    unfold chatLoop
    dsimp only
    rw [hne]
    simp only [Bool.false_eq_true, if_false]
    obtain ⟨hA, hB, hC⟩ := ih (execToolCalls env (env.model st.messages).toolCalls
      { st with messages := st.messages ++ [.assistant (env.model st.messages)] })
    refine ⟨hA, hB, ?_⟩
    rw [hC, execToolCalls_assistantCount]
    show assistantCount (st.messages ++ [Msg.assistant (env.model st.messages)]) + k = _
    rw [assistantCount_append]
    simp [assistantCount]
    omega

/-- C1. With no active plan (and the plan gate yielding none, by planning
being disabled or plan generation declining), against a model whose
assistant responses always request at least one tool call, `Agent.chat`
terminates after exactly `max_tool_rounds` model-call/tool-dispatch rounds
and returns the fixed safe message, which is also recorded as the final
history event. -/
theorem chat_round_limit (env : AgentEnv) (cfg : AgentConfig) (st : AgentState)
    (userText : Str) (autoApprovePlan : Bool)
    (hplan : st.currentPlan = none)
    (hgate : cfg.enablePlanning = false ∨ env.genPlan userText = none)
    (htools : ∀ msgs, (env.model msgs).toolCalls ≠ []) :
    (Agent.chat env cfg st userText autoApprovePlan).2 = roundLimitMessage ∧
    (Agent.chat env cfg st userText autoApprovePlan).1.historyEvents.getLast? =
      some (.assistantE roundLimitMessage false) ∧
    assistantCount (Agent.chat env cfg st userText autoApprovePlan).1.messages =
      assistantCount st.messages + cfg.maxToolRounds := by
  have hafter : Agent.chat env cfg st userText autoApprovePlan =
      chatLoop env cfg userText cfg.maxToolRounds
        { st with historyEvents := st.historyEvents ++ [.userE userText],
                  messages := st.messages ++ [.user userText] } := by
    unfold Agent.chat
    dsimp only
    rcases hgate with hEP | hGP
    · rw [hEP]
      simp
    · rw [hplan]
      simp only [Option.isNone_none, Bool.and_true]
      cases hEPb : cfg.enablePlanning
      · simp
      · simp [hGP]
  rw [hafter]
  obtain ⟨hA, hB, hC⟩ := chatLoop_round_limit env cfg userText htools cfg.maxToolRounds
    { st with historyEvents := st.historyEvents ++ [.userE userText],
              messages := st.messages ++ [.user userText] }
  refine ⟨hA, hB, ?_⟩
  rw [hC]
  show assistantCount (st.messages ++ [Msg.user userText]) + _ = _
  rw [assistantCount_append]
  simp [assistantCount]

/-- A scripted model that always requests one tool call, with trivial
collaborators, for the round-limit witness. -/
def envC1 : AgentEnv where
  model := fun _ =>
    { content := none, toolCalls := [⟨S "call_1", S "list_dir", S "\x7b\x7d"⟩] }
  parseArgs := fun _ => none
  toolExec := fun _ _ => RVal.obj [(S "ok", RVal.bool true)]
  genPlan := fun _ => none
  finalizePlan := fun _ _ _ => none

def cfgC1 : AgentConfig where
  model := none
  maxToolRounds := 1
  debug := false
  enablePlanning := true

def stC1 : AgentState where
  messages := []
  historyEvents := []
  currentPlan := none
  planIntermediateOutputs := []

theorem chat_round_limit_witness :
    (Agent.chat envC1 cfgC1 stC1 (S "loop") false).2 = roundLimitMessage ∧
    (Agent.chat envC1 cfgC1 stC1 (S "loop") false).1.historyEvents.getLast? =
      some (.assistantE roundLimitMessage false) ∧
    assistantCount (Agent.chat envC1 cfgC1 stC1 (S "loop") false).1.messages =
      assistantCount stC1.messages + cfgC1.maxToolRounds :=
  chat_round_limit envC1 cfgC1 stC1 (S "loop") false rfl (Or.inr rfl)
    (fun _ => by simp [envC1])
